import Mathlib

/-!
Verification development for the benchmark report tooling
(`scripts/parse_bench.py` and `scripts/analyze_bench.py`).

The Python sources are shallowly embedded below:

* the Table Text Parser (`parse_bench_file`) is a line-oriented scanner
  over the report text, modelled as structurally recursive functions over
  `List Char` / `List String`;
* Python operations that can raise (`list[i]`, `list[-1]`) are modelled
  in the `Except PyErr` monad so that "the parser never raises" is a
  provable statement rather than a modelling artifact;
* Python `dict` values (insertion-ordered, update-in-place) are modelled
  as association lists with `dictSet` / `dictUpdate`;
* Python `int(...)` / `float(...)` are modelled as parsers over ASCII
  decimal text (`pyInt?` / `pyFloat?`); floats are represented exactly as
  rationals (all values appearing in the verified statements, such as
  12.5, are exactly representable in binary floating point as well);
  CPython extras (underscore digit separators, inf/nan) are not modelled —
  no statement below touches them;
* the Comparison Aggregator (`build_comparison_table`) iterates over a
  Python `set` of column keys whose iteration order is unspecified
  (string hashing is randomized per process); that enumeration is
  therefore passed as an explicit parameter, and the canonical pipeline
  instantiates it with a first-encounter enumeration.
-/

/-! ## Python-style character and string utilities -/

/-- ASCII whitespace as recognised by `str.strip()` / `\s` (inputs are ASCII). -/
def isPyWS (c : Char) : Bool :=
  c = ' ' || c = '\t' || c = '\n' || c = '\r' || c = '\x0b' || c = '\x0c'

/-- Python `str.strip()` on a character list. -/
def trimChars (l : List Char) : List Char :=
  ((l.dropWhile isPyWS).reverse.dropWhile isPyWS).reverse

/-- Python `str.strip()`. -/
def pyStrip (s : String) : String := String.mk (trimChars s.data)

/-- Split a character list at every occurrence of `sep` (Python `str.split(sep)`). -/
def splitOnCharAux (sep : Char) : List Char → List Char → List (List Char)
  | [], acc => [acc.reverse]
  | c :: rest, acc =>
    if c = sep then acc.reverse :: splitOnCharAux sep rest []
    else splitOnCharAux sep rest (c :: acc)

def splitOnCharL (sep : Char) (l : List Char) : List (List Char) :=
  splitOnCharAux sep l []

/-- Python `stripped.split("|")`. -/
def pySplitPipe (s : String) : List String :=
  (splitOnCharL '|' s.data).map String.mk

/-- Substring containment on character lists (`pat in s` for Python strings). -/
def listContainsSub (pat : List Char) : List Char → Bool
  | [] => pat.isEmpty
  | c :: rest => pat.isPrefixOf (c :: rest) || listContainsSub pat rest

/-- Python `pat in s`. -/
def containsSub (pat s : String) : Bool := listContainsSub pat.data s.data

/-- Python `s.startswith(pre)`. -/
def startsWithS (pre s : String) : Bool := pre.data.isPrefixOf s.data

/-- Python `s.endswith(suf)`. -/
def endsWithS (suf s : String) : Bool := suf.data.isSuffixOf s.data

/-- Python `s.lower()` (ASCII). -/
def lowerStr (s : String) : String := String.mk (s.data.map Char.toLower)

/-- Split a character list at the first occurrence of `sep`:
returns `(before, after)` with `sep` itself dropped. -/
def breakAtChar (sep : Char) : List Char → Option (List Char × List Char)
  | [] => none
  | c :: rest =>
    if c = sep then some ([], rest)
    else (breakAtChar sep rest).map (fun p => (c :: p.1, p.2))

/-- Python `text.splitlines()`: split on line boundaries, no trailing empty line. -/
def splitLinesAux : List Char → List Char → List (List Char)
  | [], acc => if acc.isEmpty then [] else [acc.reverse]
  | '\r' :: '\n' :: rest, acc => acc.reverse :: splitLinesAux rest []
  | '\n' :: rest, acc => acc.reverse :: splitLinesAux rest []
  | '\r' :: rest, acc => acc.reverse :: splitLinesAux rest []
  | c :: rest, acc => splitLinesAux rest (c :: acc)

def splitLines (text : String) : List String :=
  (splitLinesAux text.data []).map String.mk

/-! ## Numeric parsing (CPython `int(...)` and `float(...)` on cleaned tokens) -/

/-- Value of a nonempty all-digit character list. -/
def digitsVal : List Char → Option Nat
  | [] => none
  | l => if l.all Char.isDigit
      then some (l.foldl (fun a c => a * 10 + (c.toNat - 48)) 0)
      else none

/-- CPython `int(s)` on an already-stripped ASCII decimal string. -/
def pyInt? (s : String) : Option Int :=
  match s.data with
  | '+' :: rest => (digitsVal rest).map Int.ofNat
  | '-' :: rest => (digitsVal rest).map (fun n => -(n : Int))
  | l => (digitsVal l).map Int.ofNat

/-- Parse `D* [. D*]` (at least one digit overall) as an exact fraction
`(numerator, power-of-ten denominator)`. -/
def mantissaFrac (l : List Char) : Option (Nat × Nat) :=
  match breakAtChar '.' l with
  | none => (digitsVal l).map (fun n => (n, 1))
  | some (ip, fp) =>
    if (ip ++ fp).isEmpty then none
    else if (ip ++ fp).all Char.isDigit then
      some ((ip ++ fp).foldl (fun a c => a * 10 + (c.toNat - 48)) 0, 10 ^ fp.length)
    else none

/-- Exponent part `[+-]? D+` as an integer. -/
def expVal (l : List Char) : Option Int :=
  match l with
  | '+' :: rest => (digitsVal rest).map Int.ofNat
  | '-' :: rest => (digitsVal rest).map (fun n => -(n : Int))
  | _ => (digitsVal l).map Int.ofNat

/-- Assemble `(mantissa fraction) * 10 ^ exponent` as an exact rational. -/
def fracToRat (mf : Nat × Nat) : Int → ℚ
  | Int.ofNat k => mkRat (Int.ofNat (mf.1 * 10 ^ k)) mf.2
  | Int.negSucc k => mkRat (Int.ofNat mf.1) (mf.2 * 10 ^ (k + 1))

/-- CPython `float(s)` on an already-stripped ASCII decimal string
(`[+-]? (D+ [. D*] | . D+) ([eE] [+-]? D+)?`; inf/nan not modelled).
The value is exact: every finite decimal is a rational. -/
def pyFloat? (s : String) : Option ℚ :=
  let core : List Char → Option ℚ := fun l =>
    match breakAtChar 'e' l with
    | some (m, e) => do
      let mv ← mantissaFrac m
      let ev ← expVal e
      pure (fracToRat mv ev)
    | none =>
      match breakAtChar 'E' l with
      | some (m, e) => do
        let mv ← mantissaFrac m
        let ev ← expVal e
        pure (fracToRat mv ev)
      | none => (mantissaFrac l).map (fun mf => fracToRat mf 0)
  match s.data with
  | '+' :: rest => core rest
  | '-' :: rest => (core rest).map Neg.neg
  | l => core l

/-! ## Data model (`parse_bench.py` output shape / `analyze_bench.py` input shape) -/

/-- A typed table cell: Python int, float, str, or None. -/
inductive Cell where
  | int (n : Int)
  | float (q : ℚ)
  | str (s : String)
  | null
deriving DecidableEq, Repr

/-- A Row is a Python dict from column name to cell, insertion-ordered. -/
abbrev Row := List (String × Cell)

structure Table where
  title : String
  columns : List String
  rows : List Row
deriving DecidableEq, Repr

structure Report where
  metadata : List (String × String)
  tables : List Table
  warnings : List String
deriving DecidableEq, Repr

/-- Python `d[k] = v`: update in place (keeping original position) or append. -/
def dictSet {α : Type} : List (String × α) → String → α → List (String × α)
  | [], k, v => [(k, v)]
  | (k', v') :: rest, k, v =>
    if k' = k then (k, v) :: rest else (k', v') :: dictSet rest k v

/-- Association-list lookup (Python `d.get(k)` / `k in d`). -/
def lookupA {α : Type} : List (String × α) → String → Option α
  | [], _ => none
  | (k', v) :: rest, k => if k' = k then some v else lookupA rest k

/-- Python `d[k] = f(d.get(k))` in one step (used for `defaultdict`). -/
def dictUpdate {α : Type} : List (String × α) → String → (Option α → α) → List (String × α)
  | [], k, f => [(k, f none)]
  | (k', v) :: rest, k, f =>
    if k' = k then (k, f (some v)) :: rest else (k', v) :: dictUpdate rest k f

/-! ## Cell Coercer (`parse_bench.py` lines 138-147) -/

/-- Model of `val.replace(",", "").replace("%", "").strip()`. -/
def cleanedOf (val : String) : String :=
  pyStrip (String.mk (val.data.filter (fun c => !(c = ',' || c = '%'))))

/-- The Cell Coercer: strip `,` and `%`, then parse as float if the cleaned
token contains `.`, else as int; on failure return the original token. -/
def coerceCell (val : String) : Cell :=
  let cleaned := cleanedOf val
  if cleaned.data.contains '.' then
    match pyFloat? cleaned with
    | some q => Cell.float q
    | none => Cell.str val
  else
    match pyInt? cleaned with
    | some n => Cell.int n
    | none => Cell.str val

/-! ## Table Text Parser (`parse_bench.py`, `parse_bench_file`) -/

/-- Errors a modelled Python operation can raise (list indexing out of range). -/
inductive PyErr where
  | indexError
deriving DecidableEq, Repr

/-- Python `parts[-1]`. -/
def pyLast (l : List String) : Except PyErr String :=
  match l.getLast? with
  | some x => Except.ok x
  | none => Except.error PyErr.indexError

/-- Python `parts[i]` for `i ≥ 0`. -/
def pyGet (l : List String) (i : Nat) : Except PyErr String :=
  match l.get? i with
  | some x => Except.ok x
  | none => Except.error PyErr.indexError

/-- Regex `^===\s*(.+?)\s*===$` (lines 39-44): a `=== Section Title ===`
metadata marker.  The captured group is modelled as the trimmed middle
(the regex returns a single whitespace character when the middle is all
whitespace; that value is only stored in the metadata map and no
statement below depends on it). -/
def matchSection (line : String) : Option String :=
  let l := line.data
  if "===".data.isPrefixOf l && "===".data.isSuffixOf l && decide (7 ≤ l.length) then
    some (String.mk (trimChars ((l.drop 3).take (l.length - 6))))
  else none

def isWordChar (c : Char) : Bool := c.isAlphanum || c = '_'

def isKVClass (c : Char) : Bool :=
  isWordChar c || isPyWS c || c = '(' || c = ')' || c = '-'

/-- Regex `^([\w][\w\s()\-]*?):\s+(.+)$` (lines 46-50): a `key: value`
metadata line.  Because the key's character class excludes `:`, the match
splits at the first colon; the groups (after the source's `.strip()`
calls) are the trimmed prefix and the trimmed rest. -/
def matchKeyValue (line : String) : Option (String × String) :=
  match breakAtChar ':' line.data with
  | none => none
  | some (pre, rest) =>
    match pre with
    | [] => none
    | c0 :: _ =>
      if isWordChar c0 && pre.all isKVClass
          && (match rest with
              | [] => false
              | r0 :: rtail => isPyWS r0 && !rtail.isEmpty) then
        some (String.mk (trimChars pre), String.mk (trimChars rest))
      else none

/-- Phase 1 (lines 33-52): consume the metadata preamble, returning the
metadata dict and the remaining (unconsumed) lines. -/
def phase1 : List String → List (String × String) → List (String × String) × List String
  | [], md => (md, [])
  | l :: rest, md =>
    let line := pyStrip l
    if line = "" then phase1 rest md
    else
      match matchSection line with
      | some sec => phase1 rest (dictSet md "_section" sec)
      | none =>
        match matchKeyValue line with
        | some kv =>
          if !startsWithS "|" line && !containsSub "ns/op" line then
            phase1 rest (dictSet md kv.1 kv.2)
          else (md, l :: rest)
        | none => (md, l :: rest)

/-- Warning/recommendation line test (lines 64-70). -/
def isWarningLine (stripped : String) : Bool :=
  startsWithS "Warning" stripped
    || containsSub "stability" (lowerStr stripped)
    || startsWithS "Recommendations" stripped
    || startsWithS "* " stripped
    || startsWithS "See " stripped

def isSepChar (c : Char) : Bool :=
  isPyWS c || c = '|' || c = ':' || c = '-' || c = '+'

/-- Separator line test (line 91): regex `^[\s|:\-+]+$` and length > 3. -/
def isSepLine (stripped : String) : Bool :=
  !stripped.data.isEmpty && stripped.data.all isSepChar && decide (3 < stripped.data.length)

/-- Split on `|`, strip each field, and drop the empty fields
(lines 98-99 and 131-132; note: ALL empty fields are dropped, not only
the boundary ones). -/
def fieldsOf (stripped : String) : List String :=
  ((pySplitPipe stripped).map pyStrip).filter (fun p => p ≠ "")

/-- Model of `any(kw in parts[-1].lower() for kw in ["ns/op", "op/s", "err%", "cyc/op"])`
(lines 102-104): substring test against the metric keywords. -/
def hasMetricKw (field : String) : Bool :=
  containsSub "ns/op" (lowerStr field)
    || containsSub "op/s" (lowerStr field)
    || containsSub "err%" (lowerStr field)
    || containsSub "cyc/op" (lowerStr field)

/-- Header-line handling (lines 96-106): returns the (possibly updated)
title and the new header columns.  All fields become column names; the
final field additionally becomes the title when it has no metric keyword. -/
def handleHeader (t0 : Option String) (stripped : String) :
    Except PyErr (Option String × List String) :=
  let parts := fieldsOf stripped
  if parts.isEmpty then Except.ok (t0, parts)
  else
    match pyLast parts with
    | Except.error e => Except.error e
    | Except.ok lastF =>
      if hasMetricKw lastF then Except.ok (t0, parts)
      else Except.ok (some lastF, parts)

/-- The data-row loop body (lines 136-149): zip fields against column
names positionally, coercing cells and padding missing trailing cells
with `Cell.null`; a duplicated column name keeps the last cell. -/
def buildRowAux (parts : List String) : List String → Nat → Row → Except PyErr Row
  | [], _, row => Except.ok row
  | col :: cols, ci, row =>
    if ci < parts.length then
      match pyGet parts ci with
      | Except.error e => Except.error e
      | Except.ok v =>
        buildRowAux parts cols (ci + 1) (dictSet row col (coerceCell (pyStrip v)))
    else
      buildRowAux parts cols (ci + 1) (dictSet row col Cell.null)

def buildRow (headerCols parts : List String) : Except PyErr Row :=
  buildRowAux parts headerCols 0 []

/-- Data-row handling (lines 130-153): the row is appended only when at
least two nonempty fields remain after splitting. -/
def processDataRow (headerCols : List String) (stripped : String) (rows : List Row) :
    Except PyErr (List Row) :=
  let parts := fieldsOf stripped
  if 2 ≤ parts.length then
    match buildRow headerCols parts with
    | Except.error e => Except.error e
    | Except.ok row => Except.ok (rows ++ [row])
  else Except.ok rows

/-- Phase-2 scanner state (`current_title`, `header_cols`, `rows`, plus
the accumulating `tables` and `warnings`). -/
structure P2State where
  tables : List Table
  warnings : List String
  currentTitle : Option String
  headerCols : Option (List String)
  rows : List Row
deriving DecidableEq, Repr

/-- Python truthiness of `header_cols` (a `None` or an empty list is falsy). -/
def truthyCols : Option (List String) → Bool
  | none => false
  | some l => !l.isEmpty

/-- Flush the in-progress table (lines 76-87, 113-124, 157-165):
only when `header_cols` is truthy and `rows` is nonempty. -/
def flushTable (st : P2State) : P2State :=
  if truthyCols st.headerCols && !st.rows.isEmpty then
    { st with
      tables := st.tables ++
        [{ title := st.currentTitle.getD "",
           columns := st.headerCols.getD [],
           rows := st.rows }],
      headerCols := none,
      rows := [] }
  else st

/-- One phase-2 line (lines 59-155), classified by the source's cascade:
warning, blank, separator, header, bare title, data row, or ignored. -/
def step (st : P2State) (rawLine : String) : Except PyErr P2State :=
  let stripped := pyStrip rawLine
  if isWarningLine stripped then
    Except.ok { st with warnings := st.warnings ++ [stripped] }
  else if stripped = "" then
    Except.ok (flushTable st)
  else if isSepLine stripped then
    Except.ok st
  else if containsSub "ns/op" stripped && containsSub "|" stripped then
    match handleHeader st.currentTitle stripped with
    | Except.error e => Except.error e
    | Except.ok tp =>
      Except.ok { st with currentTitle := tp.1, headerCols := some tp.2, rows := [] }
  else if !containsSub "|" stripped && !startsWithS "Warning" stripped then
    let st' := flushTable st
    Except.ok { st' with currentTitle := some stripped }
  else if containsSub "|" stripped && truthyCols st.headerCols then
    match processDataRow (st.headerCols.getD []) stripped st.rows with
    | Except.error e => Except.error e
    | Except.ok rows' => Except.ok { st with rows := rows' }
  else
    Except.ok st

/-- Run phase 2 over the remaining lines. -/
def runLines (st : P2State) : List String → Except PyErr P2State
  | [] => Except.ok st
  | l :: ls =>
    match step st l with
    | Except.error e => Except.error e
    | Except.ok st' => runLines st' ls

/-- Model of `parse_bench_file` (lines 21-167): metadata preamble, then the table
scanner, then the final flush. -/
def parseBenchFile (text : String) : Except PyErr Report :=
  let lines := splitLines text
  let p := phase1 lines []
  match runLines { tables := [], warnings := [], currentTitle := none,
                   headerCols := none, rows := [] } p.2 with
  | Except.error e => Except.error e
  | Except.ok st =>
    let st' := flushTable st
    Except.ok { metadata := p.1, tables := st'.tables, warnings := st'.warnings }

/-! ## Run Ordering Policy (`analyze_bench.py` lines 19-45, 90-98) -/

def COMPILER_ORDER : List String :=
  ["gcc-12", "gcc-13", "gcc-14", "gcc-15",
   "clang-18", "clang-19", "clang-20", "clang-21", "clang-22"]

def VARIANT_ORDER : List String := ["default", "native"]

/-- Model of `compiler_sort_key` (lines 35-41): position in `COMPILER_ORDER`,
unknown compilers last.  The second tuple component is the source's
constant 0, so the tuple order reduces to the first component. -/
def compilerSortKey (name : String) : Nat × Nat :=
  match COMPILER_ORDER.findIdx? (fun c => c = name) with
  | some i => (i, 0)
  | none => (100, 0)

/-- Python `s.split()`: split on whitespace runs, no empty fields. -/
def pyWords (s : String) : List String :=
  ((splitOnCharL ' ' (s.data.map (fun c => if isPyWS c then ' ' else c))).filter
    (fun w => !w.isEmpty)).map String.mk

/-- Model of `c.split()[-1]` (line 93).  The source raises on an all-whitespace
column key; such a key cannot arise from `column_key` applied to
nonempty path segments, and the default `""` here is never exercised
by any statement below. -/
def lastWord (s : String) : String := ((pyWords s).getLast?).getD ""

/-- Model of `c.rsplit(" ", 1)[0]` (line 96): everything before the last space,
or the whole string if there is none. -/
def rsplitHead (s : String) : String :=
  match breakAtChar ' ' s.data.reverse with
  | none => s
  | some p => String.mk p.2.reverse

/-- Model of `VARIANT_ORDER.index(c.split()[-1]) if ... else 99` (lines 93-95). -/
def variantRank (c : String) : Nat :=
  match VARIANT_ORDER.findIdx? (fun v => v = lastWord c) with
  | some i => i
  | none => 99

/-- The combined sort key (lines 92-97) as a single scalar.  The source
key is the tuple `(variant rank, (compiler rank, 0))` compared
lexicographically; since both ranks are at most 100 < 1000, the scalar
`variantRank * 1000 + compilerRank` realises exactly that order. -/
def colKeyN (c : String) : Nat :=
  variantRank c * 1000 + (compilerSortKey (rsplitHead c)).1

/-- The Run Ordering Policy as a (non-strict, total) relation. -/
def colLe (a b : String) : Prop := colKeyN a ≤ colKeyN b

instance : DecidableRel colLe := fun a b => Nat.decLe (colKeyN a) (colKeyN b)

instance : IsTotal String colLe := ⟨fun a b => Nat.le_total (colKeyN a) (colKeyN b)⟩

instance : IsTrans String colLe := ⟨fun _ _ _ h1 h2 => Nat.le_trans h1 h2⟩

/-- Model of `sorted(all_cols, key=...)` (lines 90-98): CPython `sorted` is a
stable sort of the set's enumeration; the enumeration order itself is
unspecified and is passed in explicitly as `enum`. -/
def sortedColsOf (enum : List String) : List String := enum.insertionSort colLe

/-! ## Run Loader (`analyze_bench.py` lines 48-73) -/

/-- One input file: its path relative to the results root, and its raw
content (decoded by the JSON decoder parameter of `loadResults`). -/
structure SrcFile where
  path : String
  content : String
deriving DecidableEq, Repr

abbrev DataMap := List (String × List (String × Report))

/-- Model of `relative_to(results_root).parts`. -/
def fileParts (f : SrcFile) : List String :=
  (splitOnCharL '/' f.path.data).map String.mk

/-- The `rglob("*.json")` filename pattern: last path component ends in `.json`. -/
def isJsonName (f : SrcFile) : Bool :=
  endsWithS ".json" (((fileParts f).getLast?).getD "")

/-- The `pathlib` `stem`: the file name minus its last-dot suffix (a dot at
position 0 does not start a suffix). -/
def stemOf (name : String) : String :=
  match breakAtChar '.' name.data.reverse with
  | none => name
  | some p => if p.2.isEmpty then name else String.mk p.2.reverse

/-- Model of `column_key` (lines 44-45). -/
def columnKey (compiler variant : String) : String := compiler ++ " " ++ variant

/-- One iteration of the `load_results` loop (lines 55-71): the
accumulator is the benchmark map plus the list of diagnostics (one per
failed decode, modelled by the offending path; the source prints the
message to stderr). -/
def loadStep (decode : String → Option Report) (acc : DataMap × List String)
    (f : SrcFile) : DataMap × List String :=
  if isJsonName f then
    match fileParts f with
    | c :: v :: x :: rest =>
      match decode f.content with
      | none => (acc.1, acc.2 ++ [f.path])
      | some rep =>
        let bench := stemOf (((x :: rest).getLast?).getD x)
        (dictUpdate acc.1 bench
          (fun o => dictSet (o.getD []) (columnKey c v) rep), acc.2)
    | _ => acc
  else acc

/-- The `load_results` body run over an already-ordered file list. -/
def loadResultsFrom (decode : String → Option Report) (fs : List SrcFile) :
    DataMap × List String :=
  fs.foldl (loadStep decode) ([], [])

/-- Ordering used by `sorted(results_root.rglob("*.json"))`: `pathlib`
paths under a common root compare by their path string. -/
def pathLe (a b : SrcFile) : Prop := a.path ≤ b.path

instance : DecidableRel pathLe := fun a b => String.decidableLE a.path b.path

instance : IsTotal SrcFile pathLe := ⟨fun a b => le_total a.path b.path⟩

instance : IsTrans SrcFile pathLe := ⟨fun _ _ _ h1 h2 => le_trans h1 h2⟩

/-- Model of `load_results` (lines 48-73): sort the walked files, then fold. -/
def loadResults (decode : String → Option Report) (files : List SrcFile) :
    DataMap × List String :=
  loadResultsFrom decode (files.insertionSort pathLe)

/-! ## Comparison Aggregator (`analyze_bench.py` lines 76-164) -/

def cellStr? : Cell → Option String
  | Cell.str s => some s
  | _ => none

/-- The row's "name": the first column whose value is a string
(lines 117-120 and 142-146). -/
def firstStringValue (r : Row) : Option String :=
  (r.find? (fun p => (cellStr? p.2).isSome)).bind (fun p => cellStr? p.2)

/-- Python `r.get(k, d)`. -/
def dictGetC (r : Row) (k : String) (d : Cell) : Cell := (lookupA r k).getD d

/-- Metric extraction (lines 149-150): `ns/op` falling back to `ns`,
and `relative` falling back to `relative_pct`; default empty string. -/
def extractPair (r : Row) : Cell × Cell :=
  (dictGetC r "ns/op" (dictGetC r "ns" (Cell.str "")),
   dictGetC r "relative" (dictGetC r "relative_pct" (Cell.str "")))

/-- First row whose name equals `nm` (lines 141-154). -/
def findRowByName (rows : List Row) (nm : String) : Option Row :=
  rows.find? (fun r => firstStringValue r = some nm)

/-- Search the report's tables for `(title, nm)` (lines 138-156): a
table with a matching title but no matching row does not stop the scan. -/
def findCell : List Table → String → String → Option (Cell × Cell)
  | [], _, _ => none
  | t :: rest, title, nm =>
    if t.title = title then
      match findRowByName t.rows nm with
      | some r => some (extractPair r)
      | none => findCell rest title nm
    else findCell rest title nm

/-- One output cell (lines 130-160): the explicit "no data" marker is
the empty string, recorded when the run has no report for the benchmark
or the report lacks the table or the row. -/
def cellFor (benchData : List (String × Report)) (col title nm : String) : Cell × Cell :=
  match lookupA benchData col with
  | none => (Cell.str "", Cell.str "")
  | some rep => (findCell rep.tables title nm).getD (Cell.str "", Cell.str "")

/-- Model of `table_templates` (lines 104-111): first report encountered per
table title provides the shape template. -/
def buildTemplates (benchData : List (String × Report)) : List (String × Table) :=
  benchData.foldl
    (fun acc p =>
      p.2.tables.foldl
        (fun acc t => if (lookupA acc t.title).isSome then acc else acc ++ [(t.title, t)])
        acc)
    []

/-- One emitted comparison row: `bench`, `table_title`, `name`, plus one
`(runkey, ns/op-cell, relative-cell)` triple per sorted column. -/
structure FlatRow where
  bench : String
  tableTitle : String
  name : String
  cells : List (String × Cell × Cell)
deriving DecidableEq, Repr

/-- The per-benchmark block of `build_comparison_table` (lines 104-162). -/
def rowsForBench (sortedCols : List String) (bench : String)
    (benchData : List (String × Report)) : List FlatRow :=
  (buildTemplates benchData).flatMap
    (fun tt =>
      tt.2.rows.filterMap
        (fun row =>
          (firstStringValue row).map
            (fun nm =>
              { bench := bench, tableTitle := tt.1, name := nm,
                cells := sortedCols.map (fun col => (col, cellFor benchData col tt.1 nm)) })))

/-- Model of `sorted(data.keys())` (line 101). -/
def sortedBenchNames (data : DataMap) : List String :=
  (data.map Prod.fst).insertionSort (fun a b => a ≤ b)

/-- Model of `build_comparison_table` (lines 76-164), with the unspecified
enumeration of the `all_cols` set passed in as `enum`. -/
def buildComparisonTable (enum : List String) (data : DataMap) :
    List String × List FlatRow :=
  let sortedCols := sortedColsOf enum
  (sortedCols,
   (sortedBenchNames data).flatMap
     (fun b => rowsForBench sortedCols b ((lookupA data b).getD [])))

/-- First-encounter deduplication, used as the canonical enumeration of
the `all_cols` set (lines 85-87) in the end-to-end pipeline. -/
def dedupFirstAux (seen : List String) : List String → List String
  | [] => []
  | x :: rest =>
    if x ∈ seen then dedupFirstAux seen rest
    else x :: dedupFirstAux (x :: seen) rest

def allColsCanon (data : DataMap) : List String :=
  dedupFirstAux [] (data.flatMap (fun p => p.2.map Prod.fst))

/-- The composed pipeline: `load_results` then `build_comparison_table`
(`main`, lines 325-327). -/
def analyzePipeline (decode : String → Option Report) (files : List SrcFile) :
    List String × List FlatRow :=
  let d := (loadResults decode files).1
  buildComparisonTable (allColsCanon d) d

/-- Decidable equality for modelled Python results (used only to evaluate
concrete runs of the embedded code inside proofs). -/
instance {ε α : Type} [DecidableEq ε] [DecidableEq α] : DecidableEq (Except ε α) := fun a b =>
  match a, b with
  | Except.ok x, Except.ok y =>
    if h : x = y then isTrue (by rw [h]) else isFalse (by intro hc; cases hc; exact h rfl)
  | Except.error x, Except.error y =>
    if h : x = y then isTrue (by rw [h]) else isFalse (by intro hc; cases hc; exact h rfl)
  | Except.ok _, Except.error _ => isFalse (by intro hc; cases hc)
  | Except.error _, Except.ok _ => isFalse (by intro hc; cases hc)

/-! ## Derived predicates and example data used in the statements -/

/-- The cell recorded for field position `i` of a data line. -/
def cellAtIdx (parts : List String) (i : Nat) : Cell :=
  match parts.get? i with
  | some v => coerceCell (pyStrip v)
  | none => Cell.null

/-- The predicate for "this file actually enters the loader" (a `.json`
name at depth ≥ 3). -/
def isLoadedName (f : SrcFile) : Bool :=
  isJsonName f && decide (3 ≤ (fileParts f).length)

/-- The predicate for "this file produces a diagnostic" (loaded but its
content fails to decode). -/
def isFailedName (decode : String → Option Report) (f : SrcFile) : Bool :=
  isLoadedName f && (decode f.content).isNone

/-- Predicate: `rk` belongs to the global RunKey union across all benchmarks' Reports
(the `all_cols` set of lines 85-87). -/
def GlobalCol (data : DataMap) (rk : String) : Prop :=
  ∃ p ∈ data, ∃ q ∈ p.2, q.1 = rk

/-- Predicate: `enum` is an enumeration of the `all_cols` set: duplicate-free and
with exactly the members of the global RunKey union. -/
def IsColEnum (enum : List String) (data : DataMap) : Prop :=
  enum.Nodup ∧ (∀ p ∈ data, ∀ q ∈ p.2, q.1 ∈ enum) ∧ (∀ c ∈ enum, GlobalCol data c)

instance (data : DataMap) (rk : String) : Decidable (GlobalCol data rk) := by
  unfold GlobalCol
  infer_instance

instance (enum : List String) (data : DataMap) : Decidable (IsColEnum enum data) := by
  unfold IsColEnum GlobalCol
  infer_instance

/-- Example data for concrete aggregation runs: one benchmark, two runs;
the first run's table `T` has only row `a`, the second also has row `b`. -/
def exRowA : Row := [("name", Cell.str "a"), ("ns/op", Cell.int 10)]

def exRowA2 : Row := [("name", Cell.str "a"), ("ns/op", Cell.int 12)]

def exRowB : Row := [("name", Cell.str "b"), ("ns/op", Cell.int 7)]

def exRep1 : Report :=
  { metadata := [], warnings := [],
    tables := [{ title := "T", columns := ["name", "ns/op"], rows := [exRowA] }] }

def exRep2 : Report :=
  { metadata := [], warnings := [],
    tables := [{ title := "T", columns := ["name", "ns/op"], rows := [exRowA2, exRowB] }] }

def exRunMap : List (String × Report) :=
  [("gcc-12 default", exRep1), ("gcc-13 default", exRep2)]

def exData : DataMap := [("bench", exRunMap)]

/-! ## Helper lemmas -/

/-- Two sorted lists that are permutations of one another are equal,
provided the order is antisymmetric on their members. -/
theorem sorted_perm_eq_on {α : Type} (le : α → α → Prop) :
    ∀ {l₁ l₂ : List α}, l₁.Perm l₂ → l₁.Sorted le → l₂.Sorted le →
      (∀ a ∈ l₁, ∀ b ∈ l₁, le a b → le b a → a = b) → l₁ = l₂ := by
  intro l₁
  induction l₁ with
  | nil =>
    intro l₂ hp _ _ _
    exact hp.nil_eq
  | cons a t ih =>
    intro l₂ hp hs₁ hs₂ hanti
    cases l₂ with
    | nil => exact absurd hp.eq_nil (by simp)
    | cons b t₂ =>
      have hab : a = b := by
        rcases List.mem_cons.mp (hp.subset (List.mem_cons_self a t)) with h | h
        · exact h
        · rcases List.mem_cons.mp (hp.symm.subset (List.mem_cons_self b t₂)) with h' | h'
          · exact h'.symm
          · have h1 : le a b := (List.sorted_cons.mp hs₁).1 b h'
            have h2 : le b a := (List.sorted_cons.mp hs₂).1 a h
            exact hanti a (List.mem_cons_self a t) b (List.mem_cons_of_mem a h') h1 h2
      subst hab
      have ht : t.Perm t₂ := hp.cons_inv
      have heq : t = t₂ :=
        ih ht (List.sorted_cons.mp hs₁).2 (List.sorted_cons.mp hs₂).2
          (fun x hx y hy hxy hyx =>
            hanti x (List.mem_cons_of_mem a hx) y (List.mem_cons_of_mem a hy) hxy hyx)
      rw [heq]

theorem lookupA_dictSet_self {α : Type} :
    ∀ (m : List (String × α)) (k : String) (v : α), lookupA (dictSet m k v) k = some v := by
  intro m
  induction m with
  | nil => intro k v; simp [dictSet, lookupA]
  | cons p rest ih =>
    intro k v
    by_cases h : p.1 = k
    · simp [dictSet, lookupA, h]
    · simpa [dictSet, lookupA, h] using ih k v

theorem lookupA_dictSet_ne {α : Type} :
    ∀ (m : List (String × α)) (k' k : String) (v : α), k' ≠ k →
      lookupA (dictSet m k' v) k = lookupA m k := by
  intro m
  induction m with
  | nil =>
    intro k' k v h
    simp [dictSet, lookupA, h]
  | cons p rest ih =>
    intro k' k v h
    obtain ⟨a, b⟩ := p
    by_cases h1 : a = k'
    · subst h1
      have h2 : ¬ a = k := h
      simp [dictSet, lookupA, h2]
    · by_cases h2 : a = k
      · have h3 : ¬ k = k' := fun he => h he.symm
        subst h2
        simp [dictSet, lookupA, h3]
      · simp only [dictSet, if_neg h1, lookupA, if_neg h2]
        exact ih k' k v h

theorem lookupA_dictSet_isSome {α : Type} (m : List (String × α)) (k' k : String) (v : α)
    (h : (lookupA m k).isSome) : (lookupA (dictSet m k' v) k).isSome := by
  by_cases he : k' = k
  · subst he; simp [lookupA_dictSet_self]
  · rwa [lookupA_dictSet_ne m k' k v he]

theorem dictSet_length_of_fresh {α : Type} :
    ∀ (m : List (String × α)) (k : String) (v : α), lookupA m k = none →
      (dictSet m k v).length = m.length + 1 := by
  intro m
  induction m with
  | nil => intro k v _; simp [dictSet]
  | cons p rest ih =>
    intro k v h
    by_cases h1 : p.1 = k
    · simp [lookupA, h1] at h
    · simp only [lookupA, if_neg h1] at h
      simp [dictSet, h1, ih k v h]

theorem lookupA_eq_of_mem_nodup {α : Type} :
    ∀ {l : List (String × α)} {k : String} {v : α},
      (l.map Prod.fst).Nodup → (k, v) ∈ l → lookupA l k = some v := by
  intro l
  induction l with
  | nil => intro k v _ hm; simp at hm
  | cons p rest ih =>
    intro k v hnd hm
    obtain ⟨a, b⟩ := p
    rw [List.map_cons, List.nodup_cons] at hnd
    rcases List.mem_cons.mp hm with h | h
    · injection h with h1 h2
      subst h1
      subst h2
      simp [lookupA]
    · have hne : a ≠ k := by
        intro he
        apply hnd.1
        rw [he]
        exact List.mem_map.mpr ⟨(k, v), h, rfl⟩
      simp only [lookupA, if_neg hne]
      exact ih hnd.2 h

theorem buildRowAux_ok (parts : List String) :
    ∀ (cols : List String) (ci : Nat) (acc : Row),
      ∃ r, buildRowAux parts cols ci acc = Except.ok r := by
  intro cols
  induction cols with
  | nil => intro ci acc; exact ⟨acc, rfl⟩
  | cons col cols ih =>
    intro ci acc
    by_cases h : ci < parts.length
    · have hg : pyGet parts ci = Except.ok parts[ci] := by
        simp [pyGet, List.getElem?_eq_getElem h]
      simpa [buildRowAux, h, hg] using ih (ci + 1) _
    · simpa [buildRowAux, h] using ih (ci + 1) _

theorem buildRowAux_lookup_notmem (parts : List String) :
    ∀ (cols : List String) (ci : Nat) (acc row : Row) (k : String),
      buildRowAux parts cols ci acc = Except.ok row → k ∉ cols →
      lookupA row k = lookupA acc k := by
  intro cols
  induction cols with
  | nil =>
    intro ci acc row k hb _
    simp [buildRowAux] at hb
    rw [hb]
  | cons col cols ih =>
    intro ci acc row k hb hk
    have hne : col ≠ k := fun he => hk (by rw [← he]; exact List.mem_cons_self col cols)
    have hk' : k ∉ cols := fun hm => hk (List.mem_cons_of_mem col hm)
    by_cases h : ci < parts.length
    · have hg : pyGet parts ci = Except.ok parts[ci] := by
        simp [pyGet, List.getElem?_eq_getElem h]
      simp only [buildRowAux, if_pos h, hg] at hb
      rw [ih (ci + 1) _ row k hb hk', lookupA_dictSet_ne _ col k _ hne]
    · simp only [buildRowAux, if_neg h] at hb
      rw [ih (ci + 1) _ row k hb hk', lookupA_dictSet_ne _ col k _ hne]

theorem buildRowAux_lookup_last (parts : List String) :
    ∀ (cols : List String) (ci : Nat) (acc row : Row),
      buildRowAux parts cols ci acc = Except.ok row →
      ∀ (j : Nat) (hj : j < cols.length),
        (∀ k ∈ cols.drop (j + 1), k ≠ cols.get ⟨j, hj⟩) →
        lookupA row (cols.get ⟨j, hj⟩) = some (cellAtIdx parts (ci + j)) := by
  intro cols
  induction cols with
  | nil => intro ci acc row _ j hj; simp at hj
  | cons col cols ih =>
    intro ci acc row hb j hj hlast
    by_cases h : ci < parts.length
    · have hg : pyGet parts ci = Except.ok parts[ci] := by
        simp [pyGet, List.getElem?_eq_getElem h]
      simp only [buildRowAux, if_pos h, hg] at hb
      cases j with
      | zero =>
        simp only [List.drop_succ_cons, List.drop_zero] at hlast
        have hnot : col ∉ cols := fun hm => absurd rfl (hlast col hm)
        show lookupA row col = some (cellAtIdx parts (ci + 0))
        rw [buildRowAux_lookup_notmem parts cols (ci + 1) _ row col hb hnot,
          lookupA_dictSet_self]
        simp [cellAtIdx, List.getElem?_eq_getElem h]
      | succ j' =>
        have hj' : j' < cols.length := by simpa using hj
        simp only [List.drop_succ_cons] at hlast
        simp only [List.get_cons_succ]
        have := ih (ci + 1) _ row hb j' hj'
          (by simpa using hlast)
        have harith : ci + 1 + j' = ci + (j' + 1) := by omega
        rw [harith] at this
        exact this
    · simp only [buildRowAux, if_neg h] at hb
      cases j with
      | zero =>
        simp only [List.drop_succ_cons, List.drop_zero] at hlast
        have hnot : col ∉ cols := fun hm => absurd rfl (hlast col hm)
        show lookupA row col = some (cellAtIdx parts (ci + 0))
        rw [buildRowAux_lookup_notmem parts cols (ci + 1) _ row col hb hnot,
          lookupA_dictSet_self]
        have hnone : parts[ci]? = none := by
          simp only [List.getElem?_eq_none_iff]
          omega
        simp [cellAtIdx, hnone]
      | succ j' =>
        have hj' : j' < cols.length := by simpa using hj
        simp only [List.drop_succ_cons] at hlast
        simp only [List.get_cons_succ]
        have := ih (ci + 1) _ row hb j' hj'
          (by simpa using hlast)
        have harith : ci + 1 + j' = ci + (j' + 1) := by omega
        rw [harith] at this
        exact this

theorem buildRowAux_mem_isSome (parts : List String) :
    ∀ (cols : List String) (ci : Nat) (acc row : Row) (k : String),
      buildRowAux parts cols ci acc = Except.ok row →
      (k ∈ cols ∨ (lookupA acc k).isSome) → (lookupA row k).isSome := by
  intro cols
  induction cols with
  | nil =>
    intro ci acc row k hb hm
    simp [buildRowAux] at hb
    rcases hm with hm | hm
    · simp at hm
    · rw [← hb]; exact hm
  | cons col cols ih =>
    intro ci acc row k hb hm
    by_cases h : ci < parts.length
    · have hg : pyGet parts ci = Except.ok parts[ci] := by
        simp [pyGet, List.getElem?_eq_getElem h]
      simp only [buildRowAux, if_pos h, hg] at hb
      apply ih (ci + 1) _ row k hb
      rcases hm with hm | hm
      · rcases List.mem_cons.mp hm with he | hm'
        · right; rw [he]; simp [lookupA_dictSet_self]
        · left; exact hm'
      · right; exact lookupA_dictSet_isSome _ col k _ hm
    · simp only [buildRowAux, if_neg h] at hb
      apply ih (ci + 1) _ row k hb
      rcases hm with hm | hm
      · rcases List.mem_cons.mp hm with he | hm'
        · right; rw [he]; simp [lookupA_dictSet_self]
        · left; exact hm'
      · right; exact lookupA_dictSet_isSome _ col k _ hm

theorem buildRowAux_length (parts : List String) :
    ∀ (cols : List String) (ci : Nat) (acc row : Row),
      buildRowAux parts cols ci acc = Except.ok row →
      cols.Nodup → (∀ k ∈ cols, lookupA acc k = none) →
      row.length = acc.length + cols.length := by
  intro cols
  induction cols with
  | nil =>
    intro ci acc row hb _ _
    simp [buildRowAux] at hb
    rw [← hb]
    simp
  | cons col cols ih =>
    intro ci acc row hb hnd hfresh
    have hfresh0 : lookupA acc col = none := hfresh col (List.mem_cons_self col cols)
    have hnd' := List.nodup_cons.mp hnd
    have hfresh' : ∀ v : Cell, ∀ k ∈ cols, lookupA (dictSet acc col v) k = none := by
      intro v k hk
      rw [lookupA_dictSet_ne acc col k v (fun he => hnd'.1 (he ▸ hk))]
      exact hfresh k (List.mem_cons_of_mem col hk)
    by_cases h : ci < parts.length
    · have hg : pyGet parts ci = Except.ok parts[ci] := by
        simp [pyGet, List.getElem?_eq_getElem h]
      simp only [buildRowAux, if_pos h, hg] at hb
      rw [ih (ci + 1) _ row hb hnd'.2 (hfresh' _),
        dictSet_length_of_fresh acc col _ hfresh0]
      simp only [List.length_cons]
      omega
    · simp only [buildRowAux, if_neg h] at hb
      rw [ih (ci + 1) _ row hb hnd'.2 (hfresh' _),
        dictSet_length_of_fresh acc col _ hfresh0]
      simp only [List.length_cons]
      omega

theorem handleHeader_ok (t0 : Option String) (s : String) :
    ∃ r, handleHeader t0 s = Except.ok r := by
  unfold handleHeader
  by_cases he : (fieldsOf s).isEmpty
  · exact ⟨(t0, fieldsOf s), by simp [he]⟩
  · have hne : fieldsOf s ≠ [] := by
      intro hnil
      rw [hnil] at he
      simp at he
    have hlast : pyLast (fieldsOf s) = Except.ok ((fieldsOf s).getLast hne) := by
      simp [pyLast, List.getLast?_eq_getLast _ hne]
    by_cases hkw : hasMetricKw ((fieldsOf s).getLast hne)
    · exact ⟨(t0, fieldsOf s), by simp [he, hlast, hkw]⟩
    · exact ⟨(some ((fieldsOf s).getLast hne), fieldsOf s), by simp [he, hlast, hkw]⟩

theorem buildRow_ok (headerCols parts : List String) :
    ∃ r, buildRow headerCols parts = Except.ok r :=
  buildRowAux_ok parts headerCols 0 []

theorem processDataRow_ok (headerCols : List String) (s : String) (rows : List Row) :
    ∃ r, processDataRow headerCols s rows = Except.ok r := by
  unfold processDataRow
  by_cases h : 2 ≤ (fieldsOf s).length
  · obtain ⟨row, hrow⟩ := buildRow_ok headerCols (fieldsOf s)
    exact ⟨rows ++ [row], by simp [h, hrow]⟩
  · exact ⟨rows, by simp [h]⟩

theorem step_ok (st : P2State) (line : String) : ∃ st', step st line = Except.ok st' := by
  simp only [step]
  split
  · exact ⟨_, rfl⟩
  · split
    · exact ⟨_, rfl⟩
    · split
      · exact ⟨_, rfl⟩
      · split
        · obtain ⟨tp, htp⟩ := handleHeader_ok st.currentTitle (pyStrip line)
          rw [htp]
          exact ⟨_, rfl⟩
        · split
          · exact ⟨_, rfl⟩
          · split
            · obtain ⟨rows', hr⟩ :=
                processDataRow_ok (st.headerCols.getD []) (pyStrip line) st.rows
              rw [hr]
              exact ⟨_, rfl⟩
            · exact ⟨_, rfl⟩

theorem runLines_ok : ∀ (ls : List String) (st : P2State),
    ∃ st', runLines st ls = Except.ok st' := by
  intro ls
  induction ls with
  | nil => intro st; exact ⟨st, rfl⟩
  | cons l ls ih =>
    intro st
    obtain ⟨st1, h1⟩ := step_ok st l
    obtain ⟨st2, h2⟩ := ih st1
    exact ⟨st2, by simp [runLines, h1, h2]⟩

/-! ## Claim theorems -/

/-- C9: for every input text — any sequence of lines, however malformed —
the Table Text Parser returns a Report without raising: every
potentially-raising operation (modelled in `Except`) is guarded, so the
whole scan, in which each line is either classified as metadata, warning,
blank, separator, header, title, or data row, or else ignored, always
produces an `Except.ok` Report. -/
theorem c9_parser_never_raises :
    (∀ text : String, ∃ rep, parseBenchFile text = Except.ok rep) ∧
    (∀ (st : P2State) (line : String), ∃ st', step st line = Except.ok st') := by
  constructor
  · intro text
    simp only [parseBenchFile]
    obtain ⟨st, hst⟩ := runLines_ok (phase1 (splitLines text) []).2
      { tables := [], warnings := [], currentTitle := none, headerCols := none, rows := [] }
    rw [hst]
    exact ⟨_, rfl⟩
  · exact step_ok

/-- C5: the Cell Coercer strips `,` and `%`, parses the cleaned token as a
float when it contains `.` and otherwise attempts an integer parse, never
raises (it is a total function), and on parse failure returns the original
trimmed string unchanged; `"1,234"` coerces to the integer 1234, `"12.50%"`
to the float 12.5 (= 25/2 exactly), and `"n/a"` stays the string `"n/a"`. -/
theorem c5_cell_coercer :
    (∀ s : String, (∃ n, coerceCell s = Cell.int n) ∨ (∃ q, coerceCell s = Cell.float q) ∨
      coerceCell s = Cell.str s) ∧
    (∀ s : String, '.' ∈ (cleanedOf s).data → ∀ n, coerceCell s ≠ Cell.int n) ∧
    (∀ s : String, '.' ∉ (cleanedOf s).data → ∀ q, coerceCell s ≠ Cell.float q) ∧
    coerceCell "1,234" = Cell.int 1234 ∧
    coerceCell "12.50%" = Cell.float (mkRat 25 2) ∧
    coerceCell "n/a" = Cell.str "n/a" := by
  refine ⟨?_, ?_, ?_, by decide, by decide, by decide⟩
  · intro s
    by_cases hd : '.' ∈ (cleanedOf s).data
    · cases hf : pyFloat? (cleanedOf s) with
      | some q => right; left; exact ⟨q, by simp [coerceCell, hd, hf]⟩
      | none => right; right; simp [coerceCell, hd, hf]
    · cases hi : pyInt? (cleanedOf s) with
      | some n => left; exact ⟨n, by simp [coerceCell, hd, hi]⟩
      | none => right; right; simp [coerceCell, hd, hi]
  · intro s hd n
    cases hf : pyFloat? (cleanedOf s) with
    | some q => simp [coerceCell, hd, hf]
    | none => simp [coerceCell, hd, hf]
  · intro s hd q
    cases hi : pyInt? (cleanedOf s) with
    | some n => simp [coerceCell, hd, hi]
    | none => simp [coerceCell, hd, hi]

theorem c5_cell_coercer_witness :
    '.' ∈ (cleanedOf "12.50%").data ∧
    ∀ n, coerceCell "12.50%" ≠ Cell.int n :=
  ⟨by decide, c5_cell_coercer.2.1 "12.50%" (by decide)⟩

/-- C10: when a parsed header contains duplicate column names, each emitted
Row — a mapping from column name to cell — keeps only the cell at the last
duplicate position for that name (earlier cells are silently overwritten),
while the Table's `columns` sequence still lists the name once per
occurrence.  The general part says: for any position `j` that is the last
occurrence of its column name, the Row's value at that name is the cell
coerced from field `j` (or null when the line is too short); the concrete
part shows the full parse of a duplicated header. -/
theorem c10_duplicate_columns :
    (∀ (hc parts : List String) (row : Row), buildRow hc parts = Except.ok row →
       ∀ (j : Nat) (hj : j < hc.length), (∀ k ∈ hc.drop (j + 1), k ≠ hc.get ⟨j, hj⟩) →
         lookupA row (hc.get ⟨j, hj⟩) = some (cellAtIdx parts j)) ∧
    parseBenchFile "| dup | ns/op | dup |\n| 1 | 2 | 3.5 |\n" =
      Except.ok
        { metadata := [],
          tables := [{ title := "dup", columns := ["dup", "ns/op", "dup"],
                       rows := [[("dup", Cell.float (mkRat 7 2)), ("ns/op", Cell.int 2)]] }],
          warnings := [] } := by
  constructor
  · intro hc parts row hb j hj hlast
    have := buildRowAux_lookup_last parts hc 0 [] row hb j hj hlast
    simpa using this
  · decide

theorem c10_duplicate_columns_witness :
    buildRow ["dup", "ns/op", "dup"] ["1", "2", "3.5"] =
      Except.ok [("dup", Cell.float (mkRat 7 2)), ("ns/op", Cell.int 2)] ∧
    lookupA [("dup", Cell.float (mkRat 7 2)), ("ns/op", Cell.int 2)] "dup" =
      some (cellAtIdx ["1", "2", "3.5"] 2) :=
  ⟨by decide,
   c10_duplicate_columns.1 ["dup", "ns/op", "dup"] ["1", "2", "3.5"]
     [("dup", Cell.float (mkRat 7 2)), ("ns/op", Cell.int 2)] (by decide)
     2 (by decide) (by decide)⟩

/-- C3 counterexample: the claim "the row itself is never dropped" is false.
In the text below, the line `| lone |` contains `|` while a header is
active, so it is classified as a data row; yet the parsed report's only
table has a single Row — the `| lone |` line was dropped, because after
splitting and discarding empty fields only one field remains (< 2).  The
last conjunct exhibits the drop at the data-row handler itself. -/
theorem c3_counterexample :
    parseBenchFile "| foo | ns/op |\n| 7 | bar |\n| lone |\n" =
      Except.ok
        { metadata := [],
          tables := [{ title := "", columns := ["foo", "ns/op"],
                       rows := [[("foo", Cell.int 7), ("ns/op", Cell.str "bar")]] }],
          warnings := [] } ∧
    containsSub "|" "| lone |" = true ∧
    processDataRow ["foo", "ns/op"] "| lone |" [[("foo", Cell.int 7), ("ns/op", Cell.str "bar")]] =
      Except.ok [[("foo", Cell.int 7), ("ns/op", Cell.str "bar")]] := by
  refine ⟨by decide, by decide, by decide⟩

/-- C3 (amended): for a line classified as a data row, the parser splits on
`|`, discards ALL empty fields (boundary and interior), and — provided at
least two fields remain — zips the remaining fields positionally against
the column names via the Cell Coercer and emits exactly one Row that binds
every column name, padding absent trailing cells with an explicit null;
with distinct column names the Row's value count equals the columns'
length.  A line with fewer than two remaining fields is skipped without
emitting a Row. -/
theorem c3_data_row_amended :
    (∀ (hc : List String) (s : String) (rows : List Row),
       (fieldsOf s).length < 2 → processDataRow hc s rows = Except.ok rows) ∧
    (∀ (hc : List String) (s : String) (rows : List Row), 2 ≤ (fieldsOf s).length →
       ∃ row, processDataRow hc s rows = Except.ok (rows ++ [row]) ∧
         (∀ col ∈ hc, (lookupA row col).isSome) ∧
         (hc.Nodup → row.length = hc.length) ∧
         (∀ (j : Nat) (hj : j < hc.length), (∀ k ∈ hc.drop (j + 1), k ≠ hc.get ⟨j, hj⟩) →
            lookupA row (hc.get ⟨j, hj⟩) = some (cellAtIdx (fieldsOf s) j))) := by
  constructor
  · intro hc s rows h
    have h2 : ¬ 2 ≤ (fieldsOf s).length := by omega
    simp [processDataRow, h2]
  · intro hc s rows h
    obtain ⟨row, hrow⟩ := buildRow_ok hc (fieldsOf s)
    refine ⟨row, by simp [processDataRow, h, hrow], ?_, ?_, ?_⟩
    · intro col hcol
      exact buildRowAux_mem_isSome (fieldsOf s) hc 0 [] row col hrow (Or.inl hcol)
    · intro hnd
      have := buildRowAux_length (fieldsOf s) hc 0 [] row hrow hnd (by simp [lookupA])
      simpa using this
    · intro j hj hlast
      have := buildRowAux_lookup_last (fieldsOf s) hc 0 [] row hrow j hj hlast
      simpa using this

theorem c3_data_row_amended_witness :
    2 ≤ (fieldsOf "| 9 | zz |").length ∧
    ∃ row, processDataRow ["a", "ns/op"] "| 9 | zz |" [] = Except.ok ([] ++ [row]) ∧
      (∀ col ∈ ["a", "ns/op"], (lookupA row col).isSome) ∧
      (["a", "ns/op"].Nodup → row.length = ["a", "ns/op"].length) ∧
      (∀ (j : Nat) (hj : j < (["a", "ns/op"] : List String).length),
         (∀ k ∈ (["a", "ns/op"] : List String).drop (j + 1),
            k ≠ (["a", "ns/op"] : List String).get ⟨j, hj⟩) →
         lookupA row ((["a", "ns/op"] : List String).get ⟨j, hj⟩) =
           some (cellAtIdx (fieldsOf "| 9 | zz |") j)) :=
  ⟨by decide, c3_data_row_amended.2 ["a", "ns/op"] "| 9 | zz |" [] (by decide)⟩

/-- C4 counterexample: the claim says the final header field (when not a
metric name) becomes the title while only the REMAINING fields (excluding
it) become column names.  On the header `| mytable | ns/op | custom |`
the final field `custom` is not a metric name and becomes the title, but
the column names are ALL three fields — `custom` included — so the claim
is false at this input. -/
theorem c4_counterexample :
    hasMetricKw "custom" = false ∧
    fieldsOf "| mytable | ns/op | custom |" = ["mytable", "ns/op", "custom"] ∧
    parseBenchFile "| mytable | ns/op | custom |\n| 5 | alpha | beta |\n" =
      Except.ok
        { metadata := [],
          tables := [{ title := "custom", columns := ["mytable", "ns/op", "custom"],
                       rows := [[("mytable", Cell.int 5), ("ns/op", Cell.str "alpha"),
                                 ("custom", Cell.str "beta")]] }],
          warnings := [] } := by
  refine ⟨by decide, by decide, by decide⟩

/-- C4 (amended): for every header line, if the final field (after
splitting on `|` and discarding empty fields) contains none of the metric
keywords `ns/op`, `op/s`, `err%`, `cyc/op` (case-insensitive substring
test), the parser records that final field as the table's title; otherwise
the title keeps its previous value.  In BOTH cases all fields — the final
one included — become the column names.  The header
`| for loop | ns/op | err% |` yields a table whose title is the empty
string, without raising. -/
theorem c4_header_amended :
    (∀ (t0 : Option String) (s : String) (t' : Option String) (cols : List String),
       handleHeader t0 s = Except.ok (t', cols) → cols = fieldsOf s) ∧
    (∀ (t0 : Option String) (s : String) (h : fieldsOf s ≠ []),
       hasMetricKw ((fieldsOf s).getLast h) = false →
       handleHeader t0 s = Except.ok (some ((fieldsOf s).getLast h), fieldsOf s)) ∧
    (∀ (t0 : Option String) (s : String),
       (∀ h : fieldsOf s ≠ [], hasMetricKw ((fieldsOf s).getLast h) = true) →
       handleHeader t0 s = Except.ok (t0, fieldsOf s)) ∧
    parseBenchFile "| for loop | ns/op | err% |\n| 7 | 0.1 | x |\n" =
      Except.ok
        { metadata := [],
          tables := [{ title := "", columns := ["for loop", "ns/op", "err%"],
                       rows := [[("for loop", Cell.int 7), ("ns/op", Cell.float (mkRat 1 10)),
                                 ("err%", Cell.str "x")]] }],
          warnings := [] } := by
  refine ⟨?_, ?_, ?_, by decide⟩
  · intro t0 s t' cols hh
    by_cases he : (fieldsOf s).isEmpty
    · simp only [handleHeader, he, if_pos] at hh
      simp at hh
      exact hh.2.symm
    · have hne : fieldsOf s ≠ [] := by
        intro hnil; rw [hnil] at he; simp at he
      have hlast : pyLast (fieldsOf s) = Except.ok ((fieldsOf s).getLast hne) := by
        simp [pyLast, List.getLast?_eq_getLast _ hne]
      by_cases hkw : hasMetricKw ((fieldsOf s).getLast hne)
      · simp only [handleHeader, he, if_neg, hlast, hkw, if_pos, Bool.false_eq_true,
          if_false, if_true] at hh
        simp at hh
        exact hh.2.symm
      · simp only [handleHeader, he, hlast] at hh
        simp [hkw] at hh
        exact hh.2.symm
  · intro t0 s hne hkw
    have he : ¬ (fieldsOf s).isEmpty := by
      simp [List.isEmpty_iff, hne]
    have hlast : pyLast (fieldsOf s) = Except.ok ((fieldsOf s).getLast hne) := by
      simp [pyLast, List.getLast?_eq_getLast _ hne]
    simp [handleHeader, he, hlast, hkw]
  · intro t0 s hkw
    by_cases he : (fieldsOf s).isEmpty
    · simp [handleHeader, he]
    · have hne : fieldsOf s ≠ [] := by
        intro hnil; rw [hnil] at he; simp at he
      have hlast : pyLast (fieldsOf s) = Except.ok ((fieldsOf s).getLast hne) := by
        simp [pyLast, List.getLast?_eq_getLast _ hne]
      simp [handleHeader, he, hlast, hkw hne]

theorem c4_header_amended_witness :
    fieldsOf "| aaa | ns/op | bbb |" ≠ [] ∧
    hasMetricKw "bbb" = false ∧
    handleHeader none "| aaa | ns/op | bbb |" =
      Except.ok (some "bbb", ["aaa", "ns/op", "bbb"]) := by
  refine ⟨by decide, by decide, ?_⟩
  have h : fieldsOf "| aaa | ns/op | bbb |" ≠ [] := by decide
  exact c4_header_amended.2.1 none "| aaa | ns/op | bbb |" h
    (by decide : hasMetricKw "bbb" = false)

/-- C6 counterexample: the claim says ties inside the unrecognized bucket
are broken by original string ordering, making the column order
deterministic across runs.  But `sorted(all_cols, key=...)` breaks ties by
the iteration order of the `all_cols` set, which is unspecified (string
hashing is per-process randomized): the two RunKeys below tie on the sort
key, and the two possible enumerations of the same two-element set produce
different column orders — in particular the enumeration starting at
`"pcc fast"` yields an order that is NOT the string order. -/
theorem c6_counterexample :
    (["occ fast", "pcc fast"] : List String).Perm ["pcc fast", "occ fast"] ∧
    colKeyN "occ fast" = colKeyN "pcc fast" ∧
    sortedColsOf ["occ fast", "pcc fast"] = ["occ fast", "pcc fast"] ∧
    sortedColsOf ["pcc fast", "occ fast"] = ["pcc fast", "occ fast"] ∧
    sortedColsOf ["occ fast", "pcc fast"] ≠ sortedColsOf ["pcc fast", "occ fast"] := by
  refine ⟨by decide, by decide, by decide, by decide, by decide⟩

/-- C6 (amended): the Run Ordering Policy sorts RunKeys by the key
(variant rank, compiler rank) — variants by the fixed list (`default`
before `native`, unrecognized last), compilers by the fixed preference
list (family then ascending version, unrecognized after all recognized) —
as a stable sort of the column set's enumeration.  Ties are broken by the
enumeration (set-iteration) order, which is unspecified; the resulting
order is guaranteed deterministic (independent of the enumeration) only
when no two distinct RunKeys share the same sort key. -/
theorem c6_ordering_amended :
    (∀ e : List String, List.Sorted colLe (sortedColsOf e)) ∧
    (∀ e : List String, (sortedColsOf e).Perm e) ∧
    (∀ e₁ e₂ : List String, e₁.Perm e₂ →
       (∀ a ∈ e₁, ∀ b ∈ e₁, colKeyN a = colKeyN b → a = b) →
       sortedColsOf e₁ = sortedColsOf e₂) ∧
    variantRank "x default" = 0 ∧ variantRank "x native" = 1 ∧
    (∀ c : String, lastWord c ∉ VARIANT_ORDER → variantRank c = 99) ∧
    compilerSortKey "gcc-12" = (0, 0) ∧ compilerSortKey "clang-22" = (8, 0) ∧
    (∀ name : String, name ∉ COMPILER_ORDER → compilerSortKey name = (100, 0)) := by
  refine ⟨?_, ?_, ?_, by decide, by decide, ?_, by decide, by decide, ?_⟩
  · intro e
    exact List.sorted_insertionSort colLe e
  · intro e
    exact List.perm_insertionSort colLe e
  · intro e₁ e₂ hp hinj
    apply sorted_perm_eq_on colLe
    · exact (List.perm_insertionSort colLe e₁).trans
        (hp.trans (List.perm_insertionSort colLe e₂).symm)
    · exact List.sorted_insertionSort colLe e₁
    · exact List.sorted_insertionSort colLe e₂
    · intro a ha b hb hab hba
      have ha' : a ∈ e₁ := (List.perm_insertionSort colLe e₁).subset ha
      have hb' : b ∈ e₁ := (List.perm_insertionSort colLe e₁).subset hb
      exact hinj a ha' b hb' (Nat.le_antisymm hab hba)
  · intro c hc
    have hnone : VARIANT_ORDER.findIdx? (fun v => v = lastWord c) = none := by
      rw [List.findIdx?_eq_none_iff]
      intro x hx
      simp only [decide_eq_false_iff_not]
      exact fun he => hc (he ▸ hx)
    simp [variantRank, hnone]
  · intro name hn
    have hnone : COMPILER_ORDER.findIdx? (fun c => c = name) = none := by
      rw [List.findIdx?_eq_none_iff]
      intro x hx
      simp only [decide_eq_false_iff_not]
      exact fun he => hn (he ▸ hx)
    simp [compilerSortKey, hnone]

theorem c6_ordering_amended_witness :
    (["gcc-12 default", "clang-19 native", "gcc-13 default"] : List String).Perm
      ["clang-19 native", "gcc-13 default", "gcc-12 default"] ∧
    (∀ a ∈ (["gcc-12 default", "clang-19 native", "gcc-13 default"] : List String),
       ∀ b ∈ (["gcc-12 default", "clang-19 native", "gcc-13 default"] : List String),
         colKeyN a = colKeyN b → a = b) ∧
    sortedColsOf ["gcc-12 default", "clang-19 native", "gcc-13 default"] =
      sortedColsOf ["clang-19 native", "gcc-13 default", "gcc-12 default"] :=
  ⟨by decide, by decide,
   c6_ordering_amended.2.2.1 ["gcc-12 default", "clang-19 native", "gcc-13 default"]
     ["clang-19 native", "gcc-13 default", "gcc-12 default"] (by decide) (by decide)⟩

theorem loadStep_skip (decode : String → Option Report) (acc : DataMap × List String)
    (f : SrcFile) (h : isJsonName f = false ∨ (fileParts f).length < 3) :
    loadStep decode acc f = acc := by
  rcases h with h | h
  · simp [loadStep, h]
  · by_cases hj : isJsonName f
    · rcases hfp : fileParts f with _ | ⟨c1, _ | ⟨c2, _ | ⟨c3, t⟩⟩⟩
      · simp [loadStep, hj, hfp]
      · simp [loadStep, hj, hfp]
      · simp [loadStep, hj, hfp]
      · rw [hfp] at h
        simp [List.length_cons] at h
        omega
    · simp [loadStep, hj]

theorem loadStep_diag (decode : String → Option Report) (acc : DataMap × List String)
    (f : SrcFile) (c v x : String) (t : List String)
    (hj : isJsonName f = true) (hfp : fileParts f = c :: v :: x :: t)
    (hdec : decode f.content = none) :
    loadStep decode acc f = (acc.1, acc.2 ++ [f.path]) := by
  simp [loadStep, hj, hfp, hdec]

theorem loadStep_data (decode : String → Option Report) (acc : DataMap × List String)
    (f : SrcFile) (c v x : String) (t : List String) (rep : Report)
    (hj : isJsonName f = true) (hfp : fileParts f = c :: v :: x :: t)
    (hdec : decode f.content = some rep) :
    loadStep decode acc f =
      (dictUpdate acc.1 (stemOf (((x :: t).getLast?).getD x))
        (fun o => dictSet (o.getD []) (columnKey c v) rep), acc.2) := by
  simp [loadStep, hj, hfp, hdec]

theorem loadStep_fst_of_decode_none (decode : String → Option Report)
    (acc : DataMap × List String) (f : SrcFile) (hdec : decode f.content = none) :
    (loadStep decode acc f).1 = acc.1 := by
  by_cases hj : isJsonName f
  · rcases hfp : fileParts f with _ | ⟨c1, _ | ⟨c2, _ | ⟨c3, t⟩⟩⟩
    · simp [loadStep, hj, hfp]
    · simp [loadStep, hj, hfp]
    · simp [loadStep, hj, hfp]
    · rw [loadStep_diag decode acc f c1 c2 c3 t hj hfp hdec]
  · simp [loadStep, hj]

theorem loadStep_fst_congr (decode : String → Option Report)
    (acc₁ acc₂ : DataMap × List String) (f : SrcFile) (h : acc₁.1 = acc₂.1) :
    (loadStep decode acc₁ f).1 = (loadStep decode acc₂ f).1 := by
  by_cases hj : isJsonName f
  · rcases hfp : fileParts f with _ | ⟨c1, _ | ⟨c2, _ | ⟨c3, t⟩⟩⟩
    · simp [loadStep, hj, hfp, h]
    · simp [loadStep, hj, hfp, h]
    · simp [loadStep, hj, hfp, h]
    · cases hdec : decode f.content with
      | none =>
        rw [loadStep_diag decode acc₁ f c1 c2 c3 t hj hfp hdec,
          loadStep_diag decode acc₂ f c1 c2 c3 t hj hfp hdec, h]
      | some rep =>
        rw [loadStep_data decode acc₁ f c1 c2 c3 t rep hj hfp hdec,
          loadStep_data decode acc₂ f c1 c2 c3 t rep hj hfp hdec, h]
  · simp [loadStep, hj, h]

theorem foldl_loadStep_filter_loaded (decode : String → Option Report) :
    ∀ (fs : List SrcFile) (acc : DataMap × List String),
      fs.foldl (loadStep decode) acc = (fs.filter isLoadedName).foldl (loadStep decode) acc := by
  intro fs
  induction fs with
  | nil => intro acc; rfl
  | cons f fs ih =>
    intro acc
    by_cases hp : isLoadedName f
    · rw [List.foldl_cons, List.filter_cons_of_pos hp, List.foldl_cons, ih]
    · have hskip : loadStep decode acc f = acc := by
        apply loadStep_skip
        simp only [isLoadedName, Bool.and_eq_true, decide_eq_true_eq] at hp
        by_cases hj : isJsonName f
        · right
          have hlen : ¬ 3 ≤ (fileParts f).length := fun hl => hp ⟨hj, hl⟩
          omega
        · left
          simp [hj]
      rw [List.foldl_cons, hskip, List.filter_cons_of_neg hp, ih]

theorem foldl_loadStep_diags (decode : String → Option Report) :
    ∀ (fs : List SrcFile) (acc : DataMap × List String),
      (fs.foldl (loadStep decode) acc).2 =
        acc.2 ++ (fs.filter (isFailedName decode)).map SrcFile.path := by
  intro fs
  induction fs with
  | nil => intro acc; simp
  | cons f fs ih =>
    intro acc
    rw [List.foldl_cons]
    by_cases hl : isLoadedName f
    · have hj : isJsonName f = true := by
        simp only [isLoadedName, Bool.and_eq_true] at hl
        exact hl.1
      have hlen : 3 ≤ (fileParts f).length := by
        simp only [isLoadedName, Bool.and_eq_true, decide_eq_true_eq] at hl
        exact hl.2
      rcases hfp : fileParts f with _ | ⟨c1, _ | ⟨c2, _ | ⟨c3, t⟩⟩⟩
      · rw [hfp] at hlen; simp at hlen
      · rw [hfp] at hlen; simp at hlen
      · rw [hfp] at hlen; simp [List.length_cons] at hlen
      · cases hdec : decode f.content with
        | none =>
          have hfail : isFailedName decode f = true := by
            simp [isFailedName, hl, hdec]
          rw [loadStep_diag decode acc f c1 c2 c3 t hj hfp hdec, ih,
            List.filter_cons_of_pos hfail]
          simp
        | some rep =>
          have hfail : ¬ isFailedName decode f = true := by
            simp [isFailedName, hdec]
          rw [loadStep_data decode acc f c1 c2 c3 t rep hj hfp hdec, ih,
            List.filter_cons_of_neg hfail]
    · have hskip : loadStep decode acc f = acc := by
        apply loadStep_skip
        simp only [isLoadedName, Bool.and_eq_true, decide_eq_true_eq] at hl
        by_cases hj : isJsonName f
        · right
          have hlen : ¬ 3 ≤ (fileParts f).length := fun hln => hl ⟨hj, hln⟩
          omega
        · left
          simp [hj]
      have hfail : ¬ isFailedName decode f = true := by
        simp only [isFailedName, Bool.and_eq_true]
        intro hand
        exact hl hand.1
      rw [hskip, ih, List.filter_cons_of_neg hfail]

theorem foldl_loadStep_fst_filter_decodable (decode : String → Option Report) :
    ∀ (fs : List SrcFile) (acc₁ acc₂ : DataMap × List String), acc₁.1 = acc₂.1 →
      (fs.foldl (loadStep decode) acc₁).1 =
        ((fs.filter (fun f => (decode f.content).isSome)).foldl (loadStep decode) acc₂).1 := by
  intro fs
  induction fs with
  | nil => intro acc₁ acc₂ h; simpa using h
  | cons f fs ih =>
    intro acc₁ acc₂ h
    rw [List.foldl_cons]
    cases hdec : decode f.content with
    | some rep =>
      have hfil : List.filter (fun g => (decode g.content).isSome) (f :: fs) =
          f :: List.filter (fun g => (decode g.content).isSome) fs := by
        simp [List.filter_cons, hdec]
      rw [hfil, List.foldl_cons]
      exact ih _ _ (loadStep_fst_congr decode acc₁ acc₂ f h)
    | none =>
      have hfil : List.filter (fun g => (decode g.content).isSome) (f :: fs) =
          List.filter (fun g => (decode g.content).isSome) fs := by
        simp [List.filter_cons, hdec]
      rw [hfil]
      apply ih
      rw [loadStep_fst_of_decode_none decode acc₁ f hdec, h]

/-- C8 counterexample: a `.json` file at depth four — NOT the expected
compiler/variant/benchmark depth — is not skipped: it is loaded, with the
first two path segments taken as compiler and variant. -/
theorem c8_counterexample :
    (fileParts ⟨"c/v/extra/b.json", "x"⟩).length = 4 ∧
    loadResults (fun _ => some { metadata := [], tables := [], warnings := [] })
        [⟨"c/v/extra/b.json", "x"⟩] =
      ([("b", [("c v", { metadata := [], tables := [], warnings := [] })])], []) := by
  refine ⟨by decide, by decide⟩

/-- C8 (amended): during loading, every file that fails to decode is
skipped with one recorded diagnostic while the load of the remaining
files continues (the diagnostics are exactly the loaded-but-undecodable
files, and dropping the undecodable files does not change the data
mapping), and every file shallower than the compiler/variant/benchmark
depth — but NOT deeper files, which are loaded with the first two
segments as compiler and variant — is skipped silently: dropping
non-`.json` or depth-< 3 files changes neither the data mapping nor the
diagnostics.  No failure aborts the load (the loader is a total fold). -/
theorem c8_loader_amended :
    (∀ (decode : String → Option Report) (fs : List SrcFile),
       loadResultsFrom decode fs = loadResultsFrom decode (fs.filter isLoadedName)) ∧
    (∀ (decode : String → Option Report) (fs : List SrcFile),
       (loadResultsFrom decode fs).2 = (fs.filter (isFailedName decode)).map SrcFile.path) ∧
    (∀ (decode : String → Option Report) (fs : List SrcFile),
       (loadResultsFrom decode fs).1 =
         (loadResultsFrom decode (fs.filter (fun f => (decode f.content).isSome))).1) ∧
    (∀ (decode : String → Option Report) (files : List SrcFile),
       (loadResults decode files).2 =
         ((files.insertionSort pathLe).filter (isFailedName decode)).map SrcFile.path) := by
  refine ⟨?_, ?_, ?_, ?_⟩
  · intro decode fs
    exact foldl_loadStep_filter_loaded decode fs ([], [])
  · intro decode fs
    simpa using foldl_loadStep_diags decode fs ([], [])
  · intro decode fs
    exact foldl_loadStep_fst_filter_decodable decode fs ([], []) ([], []) rfl
  · intro decode files
    simpa using foldl_loadStep_diags decode (files.insertionSort pathLe) ([], [])

/-- C7: for every fixed set of input files (distinct paths — a filesystem
invariant), any two enumerations of those files in different walk orders
produce the same final ComparisonRow sequence and the same column order:
`load_results` sorts the walked paths before folding, so the data mapping,
and with it everything `build_comparison_table` derives from it, is
independent of the walk order. -/
theorem c7_walk_order_determinism (decode : String → Option Report)
    (files₁ files₂ : List SrcFile)
    (hperm : files₁.Perm files₂) (hnd : (files₁.map SrcFile.path).Nodup) :
    analyzePipeline decode files₁ = analyzePipeline decode files₂ := by
  have hsort : files₁.insertionSort pathLe = files₂.insertionSort pathLe := by
    apply sorted_perm_eq_on pathLe
    · exact (List.perm_insertionSort pathLe files₁).trans
        (hperm.trans (List.perm_insertionSort pathLe files₂).symm)
    · exact List.sorted_insertionSort pathLe files₁
    · exact List.sorted_insertionSort pathLe files₂
    · intro a ha b hb hab hba
      have ha' : a ∈ files₁ := (List.perm_insertionSort pathLe files₁).subset ha
      have hb' : b ∈ files₁ := (List.perm_insertionSort pathLe files₁).subset hb
      have hpath : a.path = b.path := le_antisymm hab hba
      exact List.inj_on_of_nodup_map hnd ha' hb' hpath
  unfold analyzePipeline loadResults
  rw [hsort]

theorem c7_walk_order_determinism_witness :
    ([⟨"a/b/c.json", "good"⟩, ⟨"d/e/f.json", "bad"⟩] : List SrcFile).Perm
      [⟨"d/e/f.json", "bad"⟩, ⟨"a/b/c.json", "good"⟩] ∧
    (([⟨"a/b/c.json", "good"⟩, ⟨"d/e/f.json", "bad"⟩] : List SrcFile).map SrcFile.path).Nodup ∧
    analyzePipeline (fun c => if c = "good" then some ⟨[], [], []⟩ else none)
        [⟨"a/b/c.json", "good"⟩, ⟨"d/e/f.json", "bad"⟩] =
      analyzePipeline (fun c => if c = "good" then some ⟨[], [], []⟩ else none)
        [⟨"d/e/f.json", "bad"⟩, ⟨"a/b/c.json", "good"⟩] :=
  ⟨by decide, by decide,
   c7_walk_order_determinism (fun c => if c = "good" then some ⟨[], [], []⟩ else none)
     [⟨"a/b/c.json", "good"⟩, ⟨"d/e/f.json", "bad"⟩]
     [⟨"d/e/f.json", "bad"⟩, ⟨"a/b/c.json", "good"⟩] (by decide) (by decide)⟩

theorem lookupA_isSome_of_mem_keys {α : Type} :
    ∀ {l : List (String × α)} {k : String}, k ∈ l.map Prod.fst →
      ∃ v, lookupA l k = some v := by
  intro l
  induction l with
  | nil => intro k hk; simp at hk
  | cons p rest ih =>
    intro k hk
    by_cases he : p.1 = k
    · exact ⟨p.2, by simp [lookupA, he]⟩
    · have hk' : k ∈ rest.map Prod.fst := by
        rcases List.mem_map.mp hk with ⟨q, hq, hqk⟩
        rcases List.mem_cons.mp hq with h | h
        · rw [h] at hqk
          exact absurd hqk he
        · exact List.mem_map.mpr ⟨q, h, hqk⟩
      obtain ⟨v, hv⟩ := ih hk'
      exact ⟨v, by simp [lookupA, he, hv]⟩

theorem map_fst_pairing {β : Type} (g : String → β) :
    ∀ l : List String, (l.map (fun c => (c, g c))).map Prod.fst = l := by
  intro l
  induction l with
  | nil => rfl
  | cons c l ih => simp [ih]

/-- Every emitted FlatRow comes from the template of its benchmark's run
map: its cells are exactly the per-sorted-column lookups against that map. -/
theorem buildComparisonTable_mem_shape (enum : List String) (data : DataMap) (fr : FlatRow)
    (h : fr ∈ (buildComparisonTable enum data).2) :
    ∃ bd, lookupA data fr.bench = some bd ∧
      ∃ tt ∈ buildTemplates bd, ∃ row ∈ tt.2.rows,
        firstStringValue row = some fr.name ∧ fr.tableTitle = tt.1 ∧
        fr.cells = (sortedColsOf enum).map
          (fun col => (col, cellFor bd col tt.1 fr.name)) := by
  simp only [buildComparisonTable] at h
  rw [List.mem_flatMap] at h
  obtain ⟨b, hb, hfr⟩ := h
  have hbk : b ∈ data.map Prod.fst :=
    (List.perm_insertionSort _ _).subset hb
  obtain ⟨bd, hbd⟩ := lookupA_isSome_of_mem_keys hbk
  rw [hbd] at hfr
  simp only [Option.getD_some, rowsForBench] at hfr
  rw [List.mem_flatMap] at hfr
  obtain ⟨tt, htt, hfr⟩ := hfr
  rw [List.mem_filterMap] at hfr
  obtain ⟨row, hrow, hmap⟩ := hfr
  cases hfsv : firstStringValue row with
  | none => rw [hfsv] at hmap; simp at hmap
  | some nm =>
    rw [hfsv] at hmap
    simp only [Option.map_some'] at hmap
    have hfr_eq := Option.some.inj hmap
    refine ⟨bd, ?_, tt, htt, row, hrow, ?_, ?_, ?_⟩
    · rw [← hfr_eq]
      exact hbd
    · rw [← hfr_eq, hfsv]
    · rw [← hfr_eq]
    · rw [← hfr_eq]

/-- C2: for every ComparisonRow emitted, the set of RunKeys with a
recorded cell (a value pair or the `""` no-data marker) is exactly the
sorted global RunKey union computed across all benchmarks — never a
per-benchmark subset; and a RunKey with no Report for the benchmark, or
whose Report lacks the table or the row, records the explicit `""`
marker (never a default zero). -/
theorem c2_column_completeness (enum : List String) (data : DataMap)
    (he : IsColEnum enum data) (hk : (data.map Prod.fst).Nodup) :
    ∀ fr ∈ (buildComparisonTable enum data).2,
      fr.cells.map Prod.fst = (buildComparisonTable enum data).1 ∧
      (∀ rk : String, rk ∈ fr.cells.map Prod.fst ↔ GlobalCol data rk) ∧
      (∀ rm, (fr.bench, rm) ∈ data → ∀ rk ∈ (buildComparisonTable enum data).1,
         (lookupA rm rk = none ∨
          ∃ rep, lookupA rm rk = some rep ∧
            findCell rep.tables fr.tableTitle fr.name = none) →
         (rk, (Cell.str "", Cell.str "")) ∈ fr.cells) := by
  intro fr hfr
  obtain ⟨bd, hbd, tt, htt, row, hrow, hfsv, htitle, hcells⟩ :=
    buildComparisonTable_mem_shape enum data fr hfr
  have hfst : fr.cells.map Prod.fst = sortedColsOf enum := by
    rw [hcells]
    exact map_fst_pairing _ _
  have hcols1 : (buildComparisonTable enum data).1 = sortedColsOf enum := rfl
  refine ⟨by rw [hfst, hcols1], ?_, ?_⟩
  · intro rk
    rw [hfst]
    constructor
    · intro hmem
      have henum : rk ∈ enum := (List.perm_insertionSort _ _).subset hmem
      exact he.2.2 rk henum
    · intro hglob
      obtain ⟨p, hp, q, hq, hqrk⟩ := hglob
      have henum : rk ∈ enum := hqrk ▸ he.2.1 p hp q hq
      exact (List.perm_insertionSort _ _).mem_iff.mpr henum
  · intro rm hrm rk hrk hmiss
    have hrm' : lookupA data fr.bench = some rm := lookupA_eq_of_mem_nodup hk hrm
    have hrmbd : rm = bd := by
      rw [hrm'] at hbd
      exact Option.some.inj hbd
    subst hrmbd
    have hcf : cellFor rm rk tt.1 fr.name = (Cell.str "", Cell.str "") := by
      rcases hmiss with hnone | ⟨rep, hsome, hfc⟩
      · simp [cellFor, hnone]
      · rw [htitle] at hfc
        simp [cellFor, hsome, hfc]
    rw [hcells]
    apply List.mem_map.mpr
    refine ⟨rk, ?_, ?_⟩
    · rw [hcols1] at hrk
      exact hrk
    · rw [hcf]

theorem c2_column_completeness_witness :
    IsColEnum ["gcc-12 default", "gcc-13 default"] exData ∧
    (exData.map Prod.fst).Nodup ∧
    ∀ fr ∈ (buildComparisonTable ["gcc-12 default", "gcc-13 default"] exData).2,
      fr.cells.map Prod.fst =
        (buildComparisonTable ["gcc-12 default", "gcc-13 default"] exData).1 ∧
      (∀ rk : String, rk ∈ fr.cells.map Prod.fst ↔ GlobalCol exData rk) ∧
      (∀ rm, (fr.bench, rm) ∈ exData →
         ∀ rk ∈ (buildComparisonTable ["gcc-12 default", "gcc-13 default"] exData).1,
           (lookupA rm rk = none ∨
            ∃ rep, lookupA rm rk = some rep ∧
              findCell rep.tables fr.tableTitle fr.name = none) →
           (rk, (Cell.str "", Cell.str "")) ∈ fr.cells) :=
  ⟨by decide, by decide,
   c2_column_completeness ["gcc-12 default", "gcc-13 default"] exData (by decide) (by decide)⟩

/-- C1 counterexample: row name `b` is present in the second run's version
of table `T`, but the first Report encountered for that title is the shape
template, and it has only row `a` — so no ComparisonRow for `b` is
emitted, refuting "a row name present in at least one run's version of
that table always yields a ComparisonRow". -/
theorem c1_counterexample :
    exData = [("bench", [("gcc-12 default", exRep1), ("gcc-13 default", exRep2)])] ∧
    exRep2.tables.map Table.title = ["T"] ∧
    exRep2.tables.map (fun t => t.rows.filterMap firstStringValue) = [["a", "b"]] ∧
    (buildComparisonTable (allColsCanon exData) exData).2.map FlatRow.name = ["a"] := by
  refine ⟨by decide, by decide, by decide, by decide⟩

/-- C1 (amended): for every benchmark and table title, the ComparisonRows
for that pair cover exactly the row names of the shape template — the
FIRST Report (in loader order) containing a table with that title.  Every
named row of the template yields a ComparisonRow, even when the row is
present in no other run: a RunKey whose run map has no Report for the
benchmark records the explicit `""` no-data marker in that row.  (Row
names appearing only in non-template Reports get no ComparisonRow, as the
counterexample shows.) -/
theorem c1_coverage_amended (enum : List String) (data : DataMap)
    (hk : (data.map Prod.fst).Nodup)
    (bench : String) (rm : List (String × Report)) (hmem : (bench, rm) ∈ data)
    (title : String) (tmpl : Table) (ht : (title, tmpl) ∈ buildTemplates rm)
    (row : Row) (hr : row ∈ tmpl.rows) (nm : String) (hn : firstStringValue row = some nm) :
    ∃ fr ∈ (buildComparisonTable enum data).2,
      fr.bench = bench ∧ fr.tableTitle = title ∧ fr.name = nm ∧
      ∀ rk ∈ (buildComparisonTable enum data).1, lookupA rm rk = none →
        (rk, (Cell.str "", Cell.str "")) ∈ fr.cells := by
  have hlook : lookupA data bench = some rm := lookupA_eq_of_mem_nodup hk hmem
  have hbk : bench ∈ data.map Prod.fst := List.mem_map.mpr ⟨(bench, rm), hmem, rfl⟩
  have hbmem : bench ∈ sortedBenchNames data :=
    (List.perm_insertionSort _ _).mem_iff.mpr hbk
  refine ⟨{ bench := bench, tableTitle := title, name := nm,
            cells := (sortedColsOf enum).map
              (fun col => (col, cellFor rm col title nm)) }, ?_, rfl, rfl, rfl, ?_⟩
  · simp only [buildComparisonTable]
    rw [List.mem_flatMap]
    refine ⟨bench, hbmem, ?_⟩
    simp only [rowsForBench, hlook, Option.getD_some]
    rw [List.mem_flatMap]
    refine ⟨(title, tmpl), ht, ?_⟩
    rw [List.mem_filterMap]
    exact ⟨row, hr, by simp [hn]⟩
  · intro rk hrk hnone
    have hrk' : rk ∈ sortedColsOf enum := hrk
    apply List.mem_map.mpr
    refine ⟨rk, hrk', ?_⟩
    simp [cellFor, hnone]

theorem c1_coverage_amended_witness :
    (exData.map Prod.fst).Nodup ∧
    ("bench", exRunMap) ∈ exData ∧
    ("T", { title := "T", columns := ["name", "ns/op"], rows := [exRowA] }) ∈
      buildTemplates exRunMap ∧
    exRowA ∈ ({ title := "T", columns := ["name", "ns/op"], rows := [exRowA] } : Table).rows ∧
    firstStringValue exRowA = some "a" ∧
    ∃ fr ∈ (buildComparisonTable ["gcc-12 default", "gcc-13 default"] exData).2,
      fr.bench = "bench" ∧ fr.tableTitle = "T" ∧ fr.name = "a" ∧
      ∀ rk ∈ (buildComparisonTable ["gcc-12 default", "gcc-13 default"] exData).1,
        lookupA exRunMap rk = none →
        (rk, (Cell.str "", Cell.str "")) ∈ fr.cells :=
  ⟨by decide, by decide, by decide, by decide, by decide,
   c1_coverage_amended ["gcc-12 default", "gcc-13 default"] exData (by decide)
     "bench" exRunMap (by decide) "T"
     { title := "T", columns := ["name", "ns/op"], rows := [exRowA] } (by decide)
     exRowA (by decide) "a" (by decide)⟩
